import Mathlib

/-!
Verification of the Ehyd hydrological forecasting script (`Ehyd/main.py`).

The script ingests per-station CSV time series, aligns them onto a fixed
monthly calendar (1960-01 .. 2021-12), associates each groundwater station
with its spatially nearest stations from other networks, imputes missing
values by month-of-year means, runs a SARIMA hyperparameter grid search,
forecasts 24 months ahead per station, and evaluates with SMAPE.

This file shallowly embeds the data model and the operations of that script:
DataFrames become association lists of (date, optional value) rows, machine
floats become exact rationals (`ℚ`, with `none : Option ℚ` standing for
NaN/missing), and the pandas/numpy primitives actually exercised by the
script are spelled out as executable Lean functions.
-/

set_option maxRecDepth 100000

/-- A calendar date, mirroring Python `datetime.date` as used by the script
(the script only ever constructs dates with year/month/day fields). -/
structure Date where
  y : ℕ
  m : ℕ
  d : ℕ
deriving DecidableEq

/-- A time-series DataFrame of the script: an ordered list of rows, each a
date index entry paired with a `Values` cell; `none` models a missing value
(NaN / the `"NaN"` fill marker). -/
abbrev DF := List (Date × Option ℚ)

/-- The month of a date, linearized as `year * 12 + (month - 1)`; this is the
order-faithful image of pandas `to_period('M')`. -/
def monthIdx (dt : Date) : ℕ := dt.y * 12 + (dt.m - 1)

/-- The month-start date of a linearized month, the image of a pandas `'MS'`
period start. -/
def monthStart (i : ℕ) : Date := ⟨i / 12, i % 12 + 1, 1⟩

/-- The fixed monthly calendar `pd.date_range(start='1960-01-01',
end='2021-12-01', freq='MS')` of `process_dataframes` (main.py:160): the 744
month starts from 1960-01-01 to 2021-12-01. -/
def calendar : List Date := (List.range 744).map (fun k => monthStart (1960 * 12 + k))

/-- The linearized months of the rows of a DataFrame. -/
def monthIdxs (rows : DF) : List ℕ := rows.map (fun r => monthIdx r.1)

/-- `df['Date'].dt.to_period('D').nunique()` (main.py:152): the number of
distinct dates among the rows. -/
def nuniqueDays (rows : DF) : ℕ := ((rows.map Prod.fst).dedup).length

/-- `df['Date'].dt.to_period('M').nunique()` (main.py:152): the number of
distinct months among the rows. -/
def nuniqueMonths (rows : DF) : ℕ := ((monthIdxs rows).dedup).length

/-- The mean that `resample('MS').mean()` assigns to one month: the mean of
the non-missing values falling in that month, `none` (NaN) if there are
none; pandas `mean` skips NaN. -/
def monthMean (rows : DF) (i : ℕ) : Option ℚ :=
  let vs := (rows.filter (fun r => monthIdx r.1 = i)).filterMap Prod.snd
  if vs.isEmpty then none else some (vs.sum / vs.length)

/-- `df.resample('MS').mean()` (main.py:154): one row per month start from
the earliest to the latest month occurring in the data, carrying the mean of
that month's non-missing values. -/
def resampleMS (rows : DF) : DF :=
  match monthIdxs rows with
  | [] => []
  | i :: is =>
    (List.range (is.foldl Nat.max i + 1 - is.foldl Nat.min i)).map
      (fun k => (monthStart (is.foldl Nat.min i + k), monthMean rows (is.foldl Nat.min i + k)))

/-- `pd.DataFrame(index=all_dates).join(df, how='left').fillna("NaN")`
(main.py:161-162): for each calendar month start, emit every row of `df`
whose index equals it (a left join repeats the left label once per matching
right row), or a single missing-valued row when none matches. -/
def joinCalendar (df : DF) : DF :=
  calendar.flatMap (fun c =>
    match df.filter (fun r => r.1 = c) with
    | [] => [(c, none)]
    | ms => ms.map (fun r => (c, r.2)))

/-- The per-DataFrame body of `process_dataframes` (main.py:149-162): resample
to monthly means when the data is finer than monthly, then left-join onto the
fixed 1960-2021 monthly calendar and pad misses. -/
def process_df (rows : DF) : DF :=
  if nuniqueMonths rows < nuniqueDays rows then joinCalendar (resampleMS rows)
  else joinCalendar rows

/-- `process_dataframes` (main.py:139-164) over the whole dictionary,
modelled as an association list keyed by station name. -/
def process_dataframes (d : List (String × DF)) : List (String × DF) :=
  d.map (fun p => (p.1, process_df p.2))

/-- `first_valid_index` on the `Values` column (main.py:355): index of the
first row holding a non-missing value. -/
def firstValidIdx : DF → Option ℕ
  | [] => none
  | r :: rs => if r.2.isSome then some 0 else (firstValidIdx rs).map (· + 1)

/-- The month-of-year mean used by `nan_imputer` (main.py:360): the mean of
the non-missing values whose date has calendar month `m` (1..12), `none`
when there is no such value (pandas `mean` of an empty selection is NaN). -/
def monthOfYearMean (rows : DF) (m : ℕ) : Option ℚ :=
  let vs := (rows.filter (fun r => r.1.m = m)).filterMap Prod.snd
  if vs.isEmpty then none else some (vs.sum / vs.length)

/-- One fill step of `nan_imputer` (main.py:359-362): a missing value is
replaced by the month-of-year mean computed over `valid`, an observed value
is kept. -/
def imputeVal (valid : DF) (r : Date × Option ℚ) : Date × Option ℚ :=
  match r.2 with
  | some v => (r.1, some v)
  | none => (r.1, monthOfYearMean valid r.1.m)

/-- The per-DataFrame body of `nan_imputer` (main.py:351-366): rows strictly
before the first valid index pass through untouched (`df.loc[fvi:]` starts
the fill there, and `update` only writes the filled slice back); from the
first valid index on, missing values are filled with month-of-year means
computed over that same tail slice. When every value is missing
(`first_valid_index` is `None`, so `loc[None:]` is the whole frame and every
monthly mean is NaN) the rows come back unchanged. -/
def nan_imputer_df (rows : DF) : DF :=
  match firstValidIdx rows with
  | none => rows
  | some i => rows.take i ++ (rows.drop i).map (imputeVal (rows.drop i))

/-- `nan_imputer` (main.py:339-368) over the whole dictionary. -/
def nan_imputer (d : List (String × DF)) : List (String × DF) :=
  d.map (fun p => (p.1, nan_imputer_df p.2))

/-- The behaviour claimed by the spec for `nan_imputer`: every missing
`Values` entry is replaced by the mean of the observed entries of the same
calendar month of year, wherever it sits in the series. Stated from the
spec's words, to be compared with `nan_imputer_df`. -/
def nan_imputer_spec_df (rows : DF) : DF :=
  rows.map (fun r =>
    match r.2 with
    | some v => (r.1, some v)
    | none => (r.1, monthOfYearMean rows r.1.m))

/-- Whether row `j` sits strictly before the first valid index (vacuously
true when there is none, in which case nothing is ever filled). -/
def beforeFirstValid (rows : DF) (j : ℕ) : Bool :=
  ((firstValidIdx rows).map (fun i => decide (j < i))).getD true

/-- A raw text line of a CSV data section, as a list of characters. -/
abbrev Line := List Char

/-- Python `str.split(sep)` for a one-character separator: `[] ↦ [""]`,
adjacent separators produce empty fields. -/
def splitOnChar (sep : Char) : Line → List Line
  | [] => [[]]
  | c :: cs =>
    if c = sep then [] :: splitOnChar sep cs
    else
      match splitOnChar sep cs with
      | [] => [[c]]
      | p :: ps => (c :: p) :: ps

/-- Python `str.strip()`: drop whitespace from both ends. -/
def trimLine (s : Line) : Line :=
  ((s.dropWhile Char.isWhitespace).reverse.dropWhile Char.isWhitespace).reverse

/-- Parse a nonempty all-digit string as a natural number, as the numeric
field scanner of `strptime` does. -/
def digitsToNat? (s : Line) : Option ℕ :=
  if s.isEmpty then none
  else if s.all Char.isDigit then
    some (s.foldl (fun acc c => 10 * acc + (c.toNat - 48)) 0)
  else none

/-- A numeric field bounded by `hi`. -/
def validNat (s : Line) (hi : ℕ) : Bool :=
  match digitsToNat? s with
  | some n => decide (n ≤ hi)
  | none => false

/-- The time-of-day part accepted by the two `strptime` formats of
`to_dataframe` (main.py:90,93): `%H:%M:%S` or `%H:%M`. -/
def validTime (t : Line) : Bool :=
  match splitOnChar ':' t with
  | [h, mi, s] => validNat h 23 && validNat mi 59 && validNat s 61
  | [h, mi] => validNat h 23 && validNat mi 59
  | _ => false

/-- `datetime.strptime(date_str.strip(), "%d.%m.%Y %H:%M:%S").date()` with
the `%H:%M` fallback (main.py:89-95): a `d.m.Y` date followed by a valid
time of day; the time is then discarded by `.date()`. Numeric range checks
model `strptime`'s field validation. -/
def parseDate (s : Line) : Option Date :=
  match splitOnChar ' ' (trimLine s) with
  | [dpart, tpart] =>
    if validTime tpart then
      match splitOnChar '.' dpart with
      | [ds, ms, ys] =>
        match digitsToNat? ds, digitsToNat? ms, digitsToNat? ys with
        | some d, some m, some y =>
          if 1 ≤ d ∧ d ≤ 31 ∧ 1 ≤ m ∧ m ≤ 12 then some ⟨y, m, d⟩ else none
        | _, _, _ => none
      | _ => none
    else none
  | _ => none

/-- An unsigned decimal numeral with an optional fractional part, exactly as
`np.float32(...)` accepts after the comma has become a dot, read as an exact
rational. -/
def parseUnsignedDecimal (s : Line) : Option ℚ :=
  match splitOnChar '.' s with
  | [ip] => (digitsToNat? ip).map (fun n => (n : ℚ))
  | [ip, fp] =>
    match digitsToNat? ip, digitsToNat? fp with
    | some a, some b => some ((a : ℚ) + (b : ℚ) / (10 : ℚ) ^ fp.length)
    | _, _ => none
  | _ => none

/-- The above with an optional leading minus sign. -/
def parseSignedDecimal (s : Line) : Option ℚ :=
  match s with
  | '-' :: body => (parseUnsignedDecimal body).map (fun q => -q)
  | _ => parseUnsignedDecimal s

/-- `np.float32(value_str.replace(',', '.'))` (main.py:103), returning
`none` (NaN is assigned, main.py:105) when the conversion fails. -/
def parseValue (s : Line) : Option ℚ :=
  parseSignedDecimal (trimLine (s.map (fun c => if c = ',' then '.' else c)))

/-- Substring containment on character lists, modelling Python's `in`. -/
def containsSeq (pat : Line) : Line → Bool
  | [] => pat.isEmpty
  | c :: cs => pat.isPrefixOf (c :: cs) || containsSeq pat cs

/-- `any(keyword in value_str for keyword in ["F", "K", "rekonstruiert aus
Version 3->"])` (main.py:98). -/
def containsKeyword (v : Line) : Bool :=
  containsSeq "F".data v || containsSeq "K".data v ||
    containsSeq "rekonstruiert aus Version 3->".data v

/-- The data-section line loop of `to_dataframe` (main.py:82-110): blank
lines are skipped; a line splitting into at least two `;`-fields has its
date parsed (failure: `continue`), its value checked against the skip
keywords (`continue`), and is otherwise appended with its parsed value (NaN
on conversion failure); a line with fewer than two `;`-fields makes the
tuple unpacking raise, which the `except Exception: break` turns into
abandoning the rest of the file's data lines. -/
def parseDataLines : List Line → List (Date × Option ℚ)
  | [] => []
  | line :: rest =>
    if (trimLine line).isEmpty then parseDataLines rest
    else
      match splitOnChar ';' line with
      | dstr :: vstr :: _ =>
        match parseDate dstr with
        | none => parseDataLines rest
        | some date =>
          if containsKeyword vstr then parseDataLines rest
          else (date, parseValue vstr) :: parseDataLines rest
      | _ => []

/-- The per-file storing step of `to_dataframe` (main.py:112-117): if any
row was parsed, build the DataFrame, unconditionally drop its last row
(`df.drop(df.index[-1])` on the fresh range index drops exactly the final
row), and store it; otherwise store nothing. -/
def to_dataframe_file (data_lines : List Line) : Option DF :=
  let data := parseDataLines data_lines
  if data.isEmpty then none else some data.dropLast

/-- `calculate_distance` (main.py:253-264) computes `scipy`'s Euclidean
distance between two points; comparisons of such distances are faithfully
mirrored by comparisons of the squared distance, which is exact over `ℚ`
(the square root is strictly monotone), so the embedding carries the
squared distance. -/
def calculate_distance_sq (c1 c2 : ℚ × ℚ) : ℚ :=
  (c1.1 - c2.1) ^ 2 + (c1.2 - c2.2) ^ 2

/-- The distance Series of `find_nearest_coordinates` (main.py:278-281):
`df.apply(lambda row: calculate_distance((gw.x, gw.y), (row.x, row.y)),
axis=1)`, keeping the (positional, unique) row index of `df` as the Series
index. -/
def distancesOf (gw : ℚ × ℚ) (df : List (ℚ × ℚ)) : List (ℕ × ℚ) :=
  df.enum.map (fun p => (p.1, calculate_distance_sq gw p.2))

/-- `distances.nsmallest(k).index` (main.py:282): the index labels of the
`k` smallest distances; pandas resolves ties by keeping earlier positions
(`keep='first'`), which a stable sort followed by `take k` reproduces. -/
def nearestIndices (gw : ℚ × ℚ) (df : List (ℚ × ℚ)) (k : ℕ) : List ℕ :=
  (((distancesOf gw df).mergeSort (fun a b => a.2 ≤ b.2)).take k).map Prod.fst

/-- `find_nearest_coordinates` (main.py:266-283): look the selected index
labels back up in `df` (`df.loc[nearest_indices]`). -/
def find_nearest_coordinates (gw : ℚ × ℚ) (df : List (ℚ × ℚ)) (k : ℕ) : List (ℚ × ℚ) :=
  (nearestIndices gw df k).filterMap (fun i => df[i]?)

/-- A non-seasonal SARIMA order `(p, d, q)`. -/
abbrev Order := ℕ × ℕ × ℕ

/-- A seasonal SARIMA order `(P, D, Q, s)`. -/
abbrev SOrder := ℕ × ℕ × ℕ × ℕ

/-- `sarima_optimizer_aic` (main.py:641-656). The SARIMAX fit is external
statsmodels code, abstracted as `fit : Order → SOrder → Option ℚ`, where
`none` models the fit raising an exception (caught and skipped) and
`some aic` a successful fit with that AIC. The running best is `none` while
`best_aic` is still `float("inf")`; a successful fit with a strictly
smaller AIC replaces it. -/
def sarima_optimizer_aic (fit : Order → SOrder → Option ℚ)
    (pdq : List Order) (seasonal_pdq : List SOrder) : Option Order × Option SOrder :=
  let best :=
    pdq.foldl (fun st param =>
      seasonal_pdq.foldl (fun st2 param_seasonal =>
        match fit param param_seasonal with
        | none => st2
        | some aic =>
          match st2 with
          | none => some (aic, param, param_seasonal)
          | some (b, p, s) =>
            if aic < b then some (aic, param, param_seasonal) else some (b, p, s)) st)
      (none : Option (ℚ × Order × SOrder))
  match best with
  | none => (none, none)
  | some (_, p, s) => (some p, some s)

/-- The grid of `(order, seasonal_order)` combinations visited by the two
nested loops of `sarima_optimizer_aic`, in visiting order. -/
def sarima_combos (pdq : List Order) (seasonal_pdq : List SOrder) : List (Order × SOrder) :=
  pdq.flatMap (fun p => seasonal_pdq.map (fun s => (p, s)))

/-- The combinations whose fit succeeds, tagged with their AIC, in visiting
order. -/
def sarima_successes (fit : Order → SOrder → Option ℚ)
    (pdq : List Order) (seasonal_pdq : List SOrder) : List (ℚ × Order × SOrder) :=
  (sarima_combos pdq seasonal_pdq).filterMap
    (fun c => (fit c.1 c.2).map (fun a => (a, c.1, c.2)))

/-- A station key of the forecast loop (a DataFrame index label). -/
abbrev Station := String

/-- Modelled from the spec: statsmodels `get_forecast(steps=24)` on a fitted
SARIMAX model "forecast[s] up to 24 months ahead", producing one predicted
mean per requested step; the fitted model is abstracted as its step
predictor `predict`. The statsmodels fit/forecast code is external to the
repository. -/
def get_forecast (steps : ℕ) (predict : ℕ → ℚ) : List ℚ :=
  (List.range steps).map predict

/-- The per-station forecasting loop (main.py:715-739): one SARIMAX fit and
24-step forecast per distinct station of the training index
(`all_data.index.unique()`), collected into `forecast_df` with one row per
station. -/
def forecast_loop (stationIndex : List Station) (predict : Station → ℕ → ℚ) :
    List (Station × List ℚ) :=
  stationIndex.dedup.map (fun st => (st, get_forecast 24 (predict st)))

/-- The forecast column labels assigned to `forecast_df` (main.py:740). -/
def forecast_columns : List String :=
  (List.range 24).map (fun i => "forecast_month_" ++ toString (i + 1))

/-- A pandas Series of per-feature correlations with the target, as an
association list from feature name to correlation value. -/
abbrev CorrSeries := List (String × ℚ)

/-- `target_corr = corr_matrix['Values'].drop('Values')` (main.py:543):
drop the entries labelled by the target itself. -/
def series_drop (s : CorrSeries) (lbl : String) : CorrSeries :=
  s.filter (fun p => p.1 ≠ lbl)

/-- `feature_corr_sum += target_corr` (main.py:548): pandas Series addition
in the aligned case the script exercises (every monthly DataFrame carries
the same feature columns), which is pointwise addition. -/
def series_add (a b : CorrSeries) : CorrSeries :=
  a.zipWith (fun p q => (p.1, p.2 + q.2)) b

/-- The value a correlation Series holds at feature `f` (0 when absent;
with a common duplicate-free feature list the label lookup is exact). -/
def series_get (c : CorrSeries) (f : String) : ℚ :=
  ((c.find? (fun p => p.1 = f)).map Prod.snd).getD 0

/-- The correlation of feature `f` with the target averaged over all the
DataFrames, `sum / feature_count` (main.py:552). -/
def avgCorr (corrs : List CorrSeries) (f : String) : ℚ :=
  ((corrs.map (fun c => series_get c f)).sum) / (corrs.length : ℚ)

/-- `average_correlation_feature_selection` (main.py:523-556). The pandas
Pearson correlation `df.corr()['Values']` of each DataFrame is external
library numerics; the embedding takes those per-DataFrame correlation
Series as the input. Each is stripped of the target label, they are summed,
divided by the DataFrame count, and the features with `avg_corr.abs() >
threshold` are returned. An empty input dictionary leaves
`feature_corr_sum` as `None` and the final division raises, modelled by
`none`. -/
def average_correlation_feature_selection (corrs : List CorrSeries) (threshold : ℚ) :
    Option (List String) :=
  match corrs with
  | [] => none
  | c0 :: rest =>
    let s := (rest.map (fun c => series_drop c "Values")).foldl series_add
      (series_drop c0 "Values")
    let avg := s.map (fun p => (p.1, p.2 / (corrs.length : ℚ)))
    some ((avg.filter (fun p => threshold < |p.2|)).map Prod.fst)

/-- `smape` (main.py:751-758): `100 * np.mean(2 * np.abs(y_pred - y_true) /
(np.abs(y_true) + np.abs(y_pred)))`, elementwise over two equal-length
arrays. -/
def smape (y_true y_pred : List ℚ) : ℚ :=
  100 * ((y_true.zipWith (fun a b => 2 * |b - a| / (|a| + |b|)) y_pred).sum
    / (y_true.length : ℚ))

/-- The spec's reading of the SMAPE value: 100 times the mean of
`2*|y_pred - y_true| / (|y_true| + |y_pred|)` over the element pairs.
Stated from the spec's words, to be compared with `smape`. -/
def smape_spec (y_true y_pred : List ℚ) : ℚ :=
  100 * (((y_true.zip y_pred).map (fun p => 2 * |p.2 - p.1| / (|p.1| + |p.2|))).sum
    / (y_true.length : ℚ))

/-- `df.copy(deep=True)` (main.py:353): under the value semantics of the
embedding a deep copy is the value itself, but binding it separately
records that every in-place operation of the loop body targets the copy. -/
def deep_copy (df : DF) : DF := df

/-- One iteration of the `nan_imputer` loop with the caller's aliasing made
explicit: the pair is (the caller's DataFrame after the call, the DataFrame
stored in the new dictionary). All in-place operations (`replace`,
`fillna`, `update`) are applied to the binding produced by `deep_copy`, so
the first component is the untouched input. -/
def imputeEntry (df : DF) : DF × DF :=
  let df_copy := deep_copy df
  let df_copy2 := nan_imputer_df df_copy
  (df, df_copy2)

lemma zipWith_eq_map_zip {α β γ : Type} (f : α → β → γ) :
    ∀ (a : List α) (b : List β), a.zipWith f b = (a.zip b).map (fun p => f p.1 p.2)
  | [], _ => by simp
  | _ :: _, [] => by simp
  | x :: xs, y :: ys => by simp [zipWith_eq_map_zip f xs ys]

lemma smape_zipWith_comm :
    ∀ (a b : List ℚ),
      a.zipWith (fun x y => 2 * |y - x| / (|x| + |y|)) b
        = b.zipWith (fun x y => 2 * |y - x| / (|x| + |y|)) a
  | [], b => by cases b <;> simp
  | a, [] => by cases a <;> simp
  | x :: xs, y :: ys => by
    simp only [List.zipWith_cons_cons, smape_zipWith_comm xs ys]
    rw [abs_sub_comm, add_comm |x| |y|]

/-- Claim C8: `smape` is symmetric in its two arguments, and its value is
100 times the mean of `2*|y_pred - y_true| / (|y_true| + |y_pred|)` over
the element pairs. -/
theorem smape_symmetric (y_true y_pred : List ℚ) (h : y_true.length = y_pred.length) :
    smape y_true y_pred = smape y_pred y_true ∧
    smape y_true y_pred = smape_spec y_true y_pred := by
  constructor
  · unfold smape
    rw [smape_zipWith_comm y_true y_pred, h]
  · unfold smape smape_spec
    rw [zipWith_eq_map_zip]

/-- Witness for C8 at `y_true = [1, 2]`, `y_pred = [3, 0]`. -/
theorem smape_symmetric_witness :
    ([(1 : ℚ), 2].length = [(3 : ℚ), 0].length) ∧
    (smape [(1 : ℚ), 2] [(3 : ℚ), 0] = smape [(3 : ℚ), 0] [(1 : ℚ), 2] ∧
     smape [(1 : ℚ), 2] [(3 : ℚ), 0] = smape_spec [(1 : ℚ), 2] [(3 : ℚ), 0]) :=
  ⟨by decide, smape_symmetric [(1 : ℚ), 2] [(3 : ℚ), 0] (by decide)⟩

/-- Claim C9: `nan_imputer` does not mutate its input dictionary: with the
aliasing of each loop iteration made explicit by `imputeEntry`, the
caller-side dictionary after the call is the original one unchanged, and the
returned dictionary is built from the modified deep copies. -/
theorem nan_imputer_no_mutation (d : List (String × DF)) :
    (d.map (fun p => (p.1, (imputeEntry p.2).1)) = d) ∧
    nan_imputer d = d.map (fun p => (p.1, (imputeEntry p.2).2)) := by
  constructor
  · simp [imputeEntry]
  · simp [nan_imputer, imputeEntry, deep_copy]

/-- Claim C6: the forecasting loop produces, for each distinct station of
the training index, a forecast of exactly 24 monthly values, so the
resulting table has one row per forecast station and 24 forecast columns. -/
theorem forecast_loop_shape (stationIndex : List Station) (predict : Station → ℕ → ℚ) :
    ((forecast_loop stationIndex predict).map Prod.fst = stationIndex.dedup) ∧
    ((forecast_loop stationIndex predict).map Prod.fst).Nodup ∧
    (∀ row ∈ forecast_loop stationIndex predict, row.2.length = 24) ∧
    forecast_columns.length = 24 := by
  have hid : (Prod.fst ∘ fun st => (st, get_forecast 24 (predict st))) = id := rfl
  refine ⟨?_, ?_, ?_, ?_⟩
  · simp only [forecast_loop, List.map_map]
    rw [hid, List.map_id]
  · simp only [forecast_loop, List.map_map]
    have : (Prod.fst ∘ fun st => (st, get_forecast 24 (predict st))) = id := rfl
    rw [this, List.map_id]
    exact stationIndex.nodup_dedup
  · intro row hrow
    simp only [forecast_loop, List.mem_map] at hrow
    obtain ⟨st, _, rfl⟩ := hrow
    simp [get_forecast]
  · simp [forecast_columns]

/-- Claim C10: whenever the data section of a file yields at least one
parsed row, `to_dataframe` stores the parsed rows with the last one
unconditionally dropped; in particular a single-row data section is stored
as an empty DataFrame. -/
theorem to_dataframe_file_drops_last (ls : List Line) (h : parseDataLines ls ≠ []) :
    to_dataframe_file ls = some (parseDataLines ls).dropLast ∧
    ((parseDataLines ls).length = 1 → to_dataframe_file ls = some []) := by
  have hne : (parseDataLines ls).isEmpty = false := List.isEmpty_eq_false.mpr h
  constructor
  · simp [to_dataframe_file, hne]
  · intro h1
    obtain ⟨a, ha⟩ := List.length_eq_one.mp h1
    simp [to_dataframe_file, hne, ha]

/-- Witness for C10 at a one-line data section. -/
theorem to_dataframe_file_drops_last_witness :
    parseDataLines ["01.01.2020 00:00:00;5".data] ≠ [] ∧
    to_dataframe_file ["01.01.2020 00:00:00;5".data]
      = some (parseDataLines ["01.01.2020 00:00:00;5".data]).dropLast ∧
    ((parseDataLines ["01.01.2020 00:00:00;5".data]).length = 1 →
      to_dataframe_file ["01.01.2020 00:00:00;5".data] = some []) :=
  ⟨by decide, to_dataframe_file_drops_last ["01.01.2020 00:00:00;5".data] (by decide)⟩

/-- Counterexample for C4: the well-formed line `01.02.2020 00:00:00;2,5`
parses to a row on its own, but after the malformed line `badline` (no `;`
field separator, so the tuple unpacking raises and the loop `break`s) it is
not included: the claim that parsing continues past every malformed line is
false. -/
theorem parseDataLines_break_counterexample :
    (parseDataLines
        ["01.01.2020 00:00:00;1,5".data, "badline".data,
         "01.02.2020 00:00:00;2,5".data]).map Prod.fst = [⟨2020, 1, 1⟩] ∧
    (parseDataLines ["01.02.2020 00:00:00;2,5".data]).map Prod.fst = [⟨2020, 2, 1⟩] := by
  decide

/-- Claim C4 (amended): a non-blank data line that does split into at least
two `;`-fields but whose date fails to parse is skipped silently and parsing
continues with the remaining lines; a non-blank line with fewer than two
`;`-fields aborts the data section, discarding all remaining lines. -/
theorem parseDataLines_malformed (line : Line) (rest : List Line)
    (hne : (trimLine line).isEmpty = false) :
    (∀ dstr vstr tl, splitOnChar ';' line = dstr :: vstr :: tl → parseDate dstr = none →
        parseDataLines (line :: rest) = parseDataLines rest) ∧
    ((splitOnChar ';' line).length < 2 → parseDataLines (line :: rest) = []) := by
  constructor
  · intro dstr vstr tl hsplit hdate
    simp [parseDataLines, hne, hsplit, hdate]
  · intro hlen
    match hsp : splitOnChar ';' line with
    | [] => simp [parseDataLines, hne, hsp]
    | [x] => simp [parseDataLines, hne, hsp]
    | a :: b :: t => rw [hsp] at hlen; simp at hlen; omega

/-- Witness for C4 at a line with two fields and an unparseable date. -/
theorem parseDataLines_malformed_witness :
    (trimLine "xx;1".data).isEmpty = false ∧
    parseDataLines ["xx;1".data, "01.02.2020 00:00:00;2,5".data]
      = parseDataLines ["01.02.2020 00:00:00;2,5".data] :=
  ⟨by decide,
   (parseDataLines_malformed "xx;1".data ["01.02.2020 00:00:00;2,5".data]
      (by decide)).1 "xx".data "1".data [] (by decide) (by decide)⟩

lemma firstValidIdx_lt_length :
    ∀ {rows : DF} {i : ℕ}, firstValidIdx rows = some i → i < rows.length
  | [], i, h => by simp [firstValidIdx] at h
  | r :: rs, i, h => by
    by_cases hr : r.2.isSome
    · simp [firstValidIdx, hr] at h
      simp [← h]
    · simp [firstValidIdx, hr] at h
      obtain ⟨j, hj, rfl⟩ := h
      have := firstValidIdx_lt_length hj
      simp
      omega

lemma firstValidIdx_take_none :
    ∀ {rows : DF} {i : ℕ}, firstValidIdx rows = some i →
      ∀ q ∈ rows.take i, q.2 = none
  | [], i, h => by simp [firstValidIdx] at h
  | r :: rs, i, h => by
    by_cases hr : r.2.isSome
    · simp [firstValidIdx, hr] at h
      subst h
      simp
    · simp [firstValidIdx, hr] at h
      obtain ⟨j, hj, rfl⟩ := h
      intro q hq
      rw [List.take_succ_cons] at hq
      rcases List.mem_cons.mp hq with rfl | hq2
      · exact Option.not_isSome_iff_eq_none.mp hr
      · exact firstValidIdx_take_none hj q hq2

lemma firstValidIdx_none_all :
    ∀ {rows : DF}, firstValidIdx rows = none → ∀ q ∈ rows, q.2 = none
  | [], _, q, hq => by simp at hq
  | r :: rs, h, q, hq => by
    by_cases hr : r.2.isSome
    · simp [firstValidIdx, hr] at h
    · simp [firstValidIdx, hr] at h
      rcases List.mem_cons.mp hq with rfl | hq2
      · exact Option.not_isSome_iff_eq_none.mp hr
      · exact firstValidIdx_none_all h q hq2

lemma monthOfYearMean_drop (rows : DF) (i : ℕ)
    (h : ∀ q ∈ rows.take i, q.2 = none) (m : ℕ) :
    monthOfYearMean rows m = monthOfYearMean (rows.drop i) m := by
  unfold monthOfYearMean
  have hsplit := List.take_append_drop i rows
  have hnil : ((rows.take i).filter (fun r => r.1.m = m)).filterMap Prod.snd = [] := by
    rw [List.filterMap_eq_nil]
    intro q hq
    exact h q (List.mem_filter.mp hq).1
  conv_lhs => rw [← hsplit]
  rw [List.filter_append, List.filterMap_append, hnil, List.nil_append]

/-- Claim C3 (amended): `nan_imputer` keeps every observed entry unchanged,
leaves missing entries strictly before the first observed entry missing,
and replaces every other missing entry by the mean of the observed `Values`
entries of the same calendar month of year. -/
theorem nan_imputer_df_fill (rows : DF) (j : ℕ) (r : Date × Option ℚ)
    (hr : rows[j]? = some r) :
    (nan_imputer_df rows).length = rows.length ∧
    (∀ v, r.2 = some v → (nan_imputer_df rows)[j]? = some (r.1, some v)) ∧
    (r.2 = none → beforeFirstValid rows j = true →
      (nan_imputer_df rows)[j]? = some (r.1, none)) ∧
    (r.2 = none → beforeFirstValid rows j = false →
      (nan_imputer_df rows)[j]? = some (r.1, monthOfYearMean rows r.1.m)) := by
  cases hf : firstValidIdx rows with
  | none =>
    have hall := firstValidIdx_none_all hf
    have hrn : r.2 = none := hall r (List.getElem?_mem hr)
    have hout : nan_imputer_df rows = rows := by simp [nan_imputer_df, hf]
    refine ⟨by rw [hout], ?_, ?_, ?_⟩
    · intro v hv; rw [hv] at hrn; exact absurd hrn (by simp)
    · intro _ _
      rw [hout, hr]
      have : r = (r.1, r.2) := rfl
      rw [this, hrn]
    · intro _ hb
      simp [beforeFirstValid, hf] at hb
  | some i =>
    have hi : i < rows.length := firstValidIdx_lt_length hf
    have htake := firstValidIdx_take_none hf
    have hlt : (rows.take i).length = i := List.length_take_of_le (le_of_lt hi)
    have hout : nan_imputer_df rows
        = rows.take i ++ (rows.drop i).map (imputeVal (rows.drop i)) := by
      simp [nan_imputer_df, hf]
    have hlen : (nan_imputer_df rows).length = rows.length := by
      rw [hout]
      simp
      omega
    refine ⟨hlen, ?_, ?_, ?_⟩
    · intro v hv
      by_cases hj : j < i
      · exfalso
        have hmem : r ∈ rows.take i := by
          have : (rows.take i)[j]? = some r := by
            rw [List.getElem?_take]
            simp [hj, hr]
          exact List.getElem?_mem this
        have := htake r hmem
        rw [hv] at this
        simp at this
      · rw [hout, List.getElem?_append_right (by omega), hlt, List.getElem?_map,
          List.getElem?_drop]
        have hjj : i + (j - i) = j := by omega
        rw [hjj, hr]
        simp [imputeVal, hv]
    · intro hvn hb
      simp [beforeFirstValid, hf] at hb
      rw [hout, List.getElem?_append_left (by omega), List.getElem?_take]
      simp only [hb, if_true, hr]
      have : r = (r.1, r.2) := rfl
      rw [this, hvn]
    · intro hvn hb
      simp [beforeFirstValid, hf] at hb
      rw [hout, List.getElem?_append_right (by omega), hlt, List.getElem?_map,
        List.getElem?_drop]
      have hjj : i + (j - i) = j := by omega
      rw [hjj, hr]
      rw [monthOfYearMean_drop rows i htake r.1.m]
      simp [imputeVal, hvn]

/-- The input refuting C3 as stated: a series whose first entry is missing
while a later January observation exists. -/
def c3_rows : DF := [(⟨1960, 1, 1⟩, none), (⟨1961, 1, 1⟩, some 5)]

/-- Counterexample for C3: in `c3_rows` the first entry is missing and an
observed value for the same calendar month (January) exists, so the claim
requires the entry to be replaced by that month's mean; but `nan_imputer`
starts filling only at `first_valid_index`, so the leading missing entry
comes back still missing, and the output differs from the spec-described
imputation. -/
theorem nan_imputer_counterexample :
    c3_rows[0]? = some (⟨1960, 1, 1⟩, none) ∧
    (monthOfYearMean c3_rows 1).isSome = true ∧
    (nan_imputer_df c3_rows)[0]? = some (⟨1960, 1, 1⟩, none) ∧
    nan_imputer_df c3_rows ≠ nan_imputer_spec_df c3_rows := by
  decide

/-- Witness for C3's amended theorem at row 1 of `c3_rows`. -/
theorem nan_imputer_df_fill_witness :
    c3_rows[1]? = some (⟨1961, 1, 1⟩, some 5) ∧
    (nan_imputer_df c3_rows).length = c3_rows.length ∧
    (nan_imputer_df c3_rows)[1]? = some (⟨1961, 1, 1⟩, some 5) :=
  ⟨by decide,
   (nan_imputer_df_fill c3_rows 1 (⟨1961, 1, 1⟩, some 5) (by decide)).1,
   (nan_imputer_df_fill c3_rows 1 (⟨1961, 1, 1⟩, some 5) (by decide)).2.1 5 rfl⟩

/-- One update of the running best of `sarima_optimizer_aic` by a
successful fit: a strictly smaller AIC replaces the incumbent. -/
def sarima_step (st : Option (ℚ × Order × SOrder)) (x : ℚ × Order × SOrder) :
    Option (ℚ × Order × SOrder) :=
  match st with
  | none => some x
  | some (b, p, s) => if x.1 < b then some x else some (b, p, s)

lemma sarima_inner_eq (fit : Order → SOrder → Option ℚ) (param : Order) :
    ∀ (sp : List SOrder) (st : Option (ℚ × Order × SOrder)),
      sp.foldl (fun st2 param_seasonal =>
        match fit param param_seasonal with
        | none => st2
        | some aic =>
          match st2 with
          | none => some (aic, param, param_seasonal)
          | some (b, p, s) =>
            if aic < b then some (aic, param, param_seasonal) else some (b, p, s)) st
      = (sp.filterMap (fun ps => (fit param ps).map (fun a => (a, param, ps)))).foldl
          sarima_step st
  | [], st => rfl
  | ps :: sp, st => by
    rw [List.foldl_cons, List.filterMap_cons]
    cases hf : fit param ps with
    | none => simp only [hf]; exact sarima_inner_eq fit param sp st
    | some a =>
      simp only [hf, Option.map_some', List.foldl_cons]
      have hstep : (match st with
          | none => some (a, param, ps)
          | some (b, p, s) => if a < b then some (a, param, ps) else some (b, p, s))
          = sarima_step st (a, param, ps) := by
        cases st with
        | none => rfl
        | some x => rfl
      rw [hstep]
      exact sarima_inner_eq fit param sp _

lemma sarima_outer_eq (fit : Order → SOrder → Option ℚ) (spdq : List SOrder) :
    ∀ (pdq : List Order) (st : Option (ℚ × Order × SOrder)),
      pdq.foldl (fun st param =>
        spdq.foldl (fun st2 param_seasonal =>
          match fit param param_seasonal with
          | none => st2
          | some aic =>
            match st2 with
            | none => some (aic, param, param_seasonal)
            | some (b, p, s) =>
              if aic < b then some (aic, param, param_seasonal) else some (b, p, s)) st) st
      = (sarima_successes fit pdq spdq).foldl sarima_step st
  | [], st => rfl
  | p :: pdq, st => by
    rw [List.foldl_cons, sarima_outer_eq fit spdq pdq]
    have hsucc : sarima_successes fit (p :: pdq) spdq
        = (spdq.filterMap (fun ps => (fit p ps).map (fun a => (a, p, ps))))
          ++ sarima_successes fit pdq spdq := by
      unfold sarima_successes sarima_combos
      rw [List.flatMap_cons, List.filterMap_append, List.filterMap_map]
      rfl
    rw [hsucc, List.foldl_append, sarima_inner_eq fit p spdq st]

lemma sarima_fold_from_some :
    ∀ (L : List (ℚ × Order × SOrder)) (x : ℚ × Order × SOrder),
      ∃ y, L.foldl sarima_step (some x) = some y ∧ (y = x ∨ y ∈ L) ∧ y.1 ≤ x.1 ∧
        ∀ z ∈ L, y.1 ≤ z.1
  | [], x => ⟨x, rfl, Or.inl rfl, le_refl _, by simp⟩
  | z :: L, x => by
    rw [List.foldl_cons]
    have hstep : sarima_step (some x) z = if z.1 < x.1 then some z else some x := by
      obtain ⟨b, p, s⟩ := x
      simp [sarima_step]
    by_cases hz : z.1 < x.1
    · rw [hstep, if_pos hz]
      obtain ⟨y, hy, hmem, hle, hall⟩ := sarima_fold_from_some L z
      refine ⟨y, hy, ?_, le_of_lt (lt_of_le_of_lt hle hz), ?_⟩
      · rcases hmem with rfl | h2
        · exact Or.inr (List.mem_cons_self _ _)
        · exact Or.inr (List.mem_cons_of_mem _ h2)
      · intro w hw
        rcases List.mem_cons.mp hw with rfl | hw2
        · exact hle
        · exact hall w hw2
    · rw [hstep, if_neg hz]
      obtain ⟨y, hy, hmem, hle, hall⟩ := sarima_fold_from_some L x
      refine ⟨y, hy, Or.imp_right (List.mem_cons_of_mem _) hmem, hle, ?_⟩
      intro w hw
      rcases List.mem_cons.mp hw with rfl | hw2
      · exact le_trans hle (not_lt.mp hz)
      · exact hall w hw2

/-- Claim C5: `sarima_optimizer_aic` skips the combinations whose fit
raises (modelled by `fit` returning `none`) and returns a pair that was fit
successfully with minimal AIC among all successful fits; when no
combination fits successfully it returns `(None, None)`. -/
theorem sarima_optimizer_aic_correct (fit : Order → SOrder → Option ℚ)
    (pdq : List Order) (seasonal_pdq : List SOrder) :
    (sarima_successes fit pdq seasonal_pdq = [] →
      sarima_optimizer_aic fit pdq seasonal_pdq = (none, none)) ∧
    (sarima_successes fit pdq seasonal_pdq ≠ [] →
      ∃ a p s, sarima_optimizer_aic fit pdq seasonal_pdq = (some p, some s) ∧
        (a, p, s) ∈ sarima_successes fit pdq seasonal_pdq ∧
        ∀ z ∈ sarima_successes fit pdq seasonal_pdq, a ≤ z.1) := by
  have hfold : sarima_optimizer_aic fit pdq seasonal_pdq
      = (match (sarima_successes fit pdq seasonal_pdq).foldl sarima_step none with
         | none => (none, none)
         | some (_, p, s) => (some p, some s)) := by
    unfold sarima_optimizer_aic
    rw [sarima_outer_eq fit seasonal_pdq pdq none]
  constructor
  · intro hnil
    rw [hfold, hnil]
    rfl
  · intro hnn
    obtain ⟨z, L, hzl⟩ : ∃ z L, sarima_successes fit pdq seasonal_pdq = z :: L := by
      cases hc : sarima_successes fit pdq seasonal_pdq with
      | nil => exact absurd hc hnn
      | cons z L => exact ⟨z, L, rfl⟩
    have hz1 : sarima_step none z = some z := rfl
    obtain ⟨y, hy, hmem, hle, hall⟩ := sarima_fold_from_some L z
    have hy2 : (sarima_successes fit pdq seasonal_pdq).foldl sarima_step none = some y := by
      rw [hzl, List.foldl_cons, hz1, hy]
    refine ⟨y.1, y.2.1, y.2.2, ?_, ?_, ?_⟩
    · rw [hfold, hy2]
    · have : y ∈ sarima_successes fit pdq seasonal_pdq := by
        rw [hzl]
        rcases hmem with rfl | h2
        · exact List.mem_cons_self _ _
        · exact List.mem_cons_of_mem _ h2
      simpa using this
    · intro w hw
      rw [hzl] at hw
      rcases List.mem_cons.mp hw with rfl | hw2
      · exact hle
      · exact hall w hw2

/-- Witness for C5 with a two-point grid where exactly one combination fits. -/
theorem sarima_optimizer_aic_correct_witness :
    sarima_successes (fun p _ => if p = (0, 0, 0) then some 1 else none)
        [(0, 0, 0), (1, 0, 0)] [(0, 0, 0, 12)] ≠ [] ∧
    (∃ a p s,
      sarima_optimizer_aic (fun p _ => if p = (0, 0, 0) then some 1 else none)
          [(0, 0, 0), (1, 0, 0)] [(0, 0, 0, 12)] = (some p, some s) ∧
      (a, p, s) ∈ sarima_successes (fun p _ => if p = (0, 0, 0) then some 1 else none)
          [(0, 0, 0), (1, 0, 0)] [(0, 0, 0, 12)] ∧
      ∀ z ∈ sarima_successes (fun p _ => if p = (0, 0, 0) then some 1 else none)
          [(0, 0, 0), (1, 0, 0)] [(0, 0, 0, 12)], a ≤ z.1) :=
  ⟨by decide,
   (sarima_optimizer_aic_correct (fun p _ => if p = (0, 0, 0) then some 1 else none)
      [(0, 0, 0), (1, 0, 0)] [(0, 0, 0, 12)]).2 (by decide)⟩

lemma distancesOf_fst (gw : ℚ × ℚ) (df : List (ℚ × ℚ)) :
    (distancesOf gw df).map Prod.fst = List.range df.length := by
  unfold distancesOf
  rw [List.map_map]
  have h : (Prod.fst ∘ fun p : ℕ × (ℚ × ℚ) => (p.1, calculate_distance_sq gw p.2))
      = Prod.fst := rfl
  rw [h, List.enum_map_fst]

lemma distancesOf_length (gw : ℚ × ℚ) (df : List (ℚ × ℚ)) :
    (distancesOf gw df).length = df.length := by
  have := congrArg List.length (distancesOf_fst gw df)
  simpa using this

lemma distancesOf_mem_elim (gw : ℚ × ℚ) (df : List (ℚ × ℚ)) {pr : ℕ × ℚ}
    (h : pr ∈ distancesOf gw df) :
    pr.1 < df.length ∧ pr.2 = calculate_distance_sq gw (df.getD pr.1 (0, 0)) := by
  unfold distancesOf at h
  obtain ⟨q, hq, rfl⟩ := List.mem_map.mp h
  have hq2 := List.mem_enum_iff_getElem?.mp hq
  obtain ⟨hlt, hval⟩ := List.getElem?_eq_some.mp hq2
  refine ⟨hlt, ?_⟩
  rw [List.getD_eq_getElem?_getD, hq2]
  simp [hval]

lemma distancesOf_mem_intro (gw : ℚ × ℚ) (df : List (ℚ × ℚ)) (j : ℕ)
    (hj : j < df.length) :
    (j, calculate_distance_sq gw (df.getD j (0, 0))) ∈ distancesOf gw df := by
  unfold distancesOf
  refine List.mem_map.mpr ⟨(j, df.getD j (0, 0)), ?_, rfl⟩
  rw [List.mem_enum_iff_getElem?]
  rw [List.getD_eq_getElem?_getD, List.getElem?_eq_getElem hj]
  rfl

lemma filterMap_getElem?_length {α : Type} (df : List α) :
    ∀ is : List ℕ, (∀ i ∈ is, i < df.length) →
      (is.filterMap (fun i => df[i]?)).length = is.length
  | [], _ => rfl
  | i :: is, h => by
    have hi : i < df.length := h i (List.mem_cons_self _ _)
    rw [List.filterMap_cons, List.getElem?_eq_getElem hi]
    simp only [List.length_cons]
    rw [filterMap_getElem?_length df is (fun j hj => h j (List.mem_cons_of_mem _ hj))]

/-- Claim C2: `find_nearest_coordinates` returns exactly `min k |df|` rows
of `df`, selected at pairwise-distinct positions, and no selected position
has a (squared-)Euclidean distance to the query point larger than any
non-selected position: the returned rows are the `k` nearest rows (all rows
when `df` has fewer than `k`). -/
theorem find_nearest_coordinates_correct (gw : ℚ × ℚ) (df : List (ℚ × ℚ)) (k : ℕ)
    (hdf : df ≠ []) :
    (find_nearest_coordinates gw df k).length = min k df.length ∧
    (∀ p ∈ find_nearest_coordinates gw df k, p ∈ df) ∧
    (nearestIndices gw df k).Nodup ∧
    (∀ i ∈ nearestIndices gw df k, i < df.length) ∧
    (∀ i ∈ nearestIndices gw df k, ∀ j, j < df.length → j ∉ nearestIndices gw df k →
      calculate_distance_sq gw (df.getD i (0, 0))
        ≤ calculate_distance_sq gw (df.getD j (0, 0))) := by
  have hperm : ((distancesOf gw df).mergeSort (fun a b => a.2 ≤ b.2)).Perm
      (distancesOf gw df) := List.mergeSort_perm _ _
  have hfst_perm : (((distancesOf gw df).mergeSort (fun a b => a.2 ≤ b.2)).map Prod.fst).Perm
      (List.range df.length) := by
    have := hperm.map Prod.fst
    rwa [distancesOf_fst] at this
  have hnodup : (((distancesOf gw df).mergeSort (fun a b => a.2 ≤ b.2)).map Prod.fst).Nodup :=
    hfst_perm.symm.nodup (List.nodup_range df.length)
  have hidx : nearestIndices gw df k
      = (((distancesOf gw df).mergeSort (fun a b => a.2 ≤ b.2)).map Prod.fst).take k := by
    unfold nearestIndices
    rw [List.map_take]
  have hbound : ∀ i ∈ nearestIndices gw df k, i < df.length := by
    intro i hi
    rw [hidx] at hi
    have : i ∈ ((distancesOf gw df).mergeSort (fun a b => a.2 ≤ b.2)).map Prod.fst :=
      (List.take_sublist _ _).mem hi
    exact List.mem_range.mp (hfst_perm.mem_iff.mp this)
  have hsortlen : ((distancesOf gw df).mergeSort (fun a b => a.2 ≤ b.2)).length = df.length := by
    rw [hperm.length_eq, distancesOf_length]
  have hidxlen : (nearestIndices gw df k).length = min k df.length := by
    rw [hidx, List.length_take, List.length_map, hsortlen]
  refine ⟨?_, ?_, ?_, hbound, ?_⟩
  · unfold find_nearest_coordinates
    rw [filterMap_getElem?_length df (nearestIndices gw df k) hbound, hidxlen]
  · intro p hp
    unfold find_nearest_coordinates at hp
    obtain ⟨i, _, hip⟩ := List.mem_filterMap.mp hp
    exact List.getElem?_mem hip
  · rw [hidx]
    exact (List.take_sublist _ _).nodup hnodup
  · intro i hi j hj hjn
    have hpair := @List.sorted_mergeSort (ℕ × ℚ)
      (fun a b => decide (a.2 ≤ b.2))
      (fun a b c hab hbc => by
        simp only [decide_eq_true_eq] at hab hbc ⊢
        exact le_trans hab hbc)
      (fun a b => by
        simp only [Bool.or_eq_true, decide_eq_true_eq]
        exact le_total a.2 b.2)
      (distancesOf gw df)
    obtain ⟨pi, hpi_take, hpi_fst⟩ := by
      rw [hidx] at hi
      rw [← List.map_take] at hi
      exact List.mem_map.mp hi
    have hpj_mem : (j, calculate_distance_sq gw (df.getD j (0, 0)))
        ∈ (distancesOf gw df).mergeSort (fun a b => a.2 ≤ b.2) :=
      hperm.mem_iff.mpr (distancesOf_mem_intro gw df j hj)
    have hsplit := List.take_append_drop k
      ((distancesOf gw df).mergeSort (fun a b => a.2 ≤ b.2))
    have hpj_drop : (j, calculate_distance_sq gw (df.getD j (0, 0)))
        ∈ ((distancesOf gw df).mergeSort (fun a b => a.2 ≤ b.2)).drop k := by
      rcases List.mem_append.mp (by rw [hsplit]; exact hpj_mem) with htk | hdr
      · exfalso
        apply hjn
        rw [hidx, ← List.map_take]
        exact List.mem_map.mpr ⟨_, htk, rfl⟩
      · exact hdr
    have hpair2 : List.Pairwise (fun a b : ℕ × ℚ => (decide (a.2 ≤ b.2)) = true)
        (((distancesOf gw df).mergeSort (fun a b => a.2 ≤ b.2)).take k
          ++ ((distancesOf gw df).mergeSort (fun a b => a.2 ≤ b.2)).drop k) := by
      rw [hsplit]
      exact hpair
    have hle := (List.pairwise_append.mp hpair2).2.2 pi hpi_take _ hpj_drop
    simp only [decide_eq_true_eq] at hle
    have hpi_dist : pi.2 = calculate_distance_sq gw (df.getD pi.1 (0, 0)) :=
      (distancesOf_mem_elim gw df (hperm.mem_iff.mp ((List.take_sublist _ _).mem hpi_take))).2
    rw [hpi_fst] at hpi_dist
    rw [← hpi_dist]
    exact hle

/-- Witness for C2 at a concrete three-point DataFrame. -/
theorem find_nearest_coordinates_correct_witness :
    ([((1 : ℚ), (1 : ℚ)), (0, 0), (2, 2)] ≠ ([] : List (ℚ × ℚ))) ∧
    (find_nearest_coordinates (0, 0) [((1 : ℚ), (1 : ℚ)), (0, 0), (2, 2)] 2).length
      = min 2 [((1 : ℚ), (1 : ℚ)), (0, 0), (2, 2)].length :=
  ⟨by decide,
   (find_nearest_coordinates_correct (0, 0) [((1 : ℚ), (1 : ℚ)), (0, 0), (2, 2)] 2
      (by decide)).1⟩

lemma monthIdx_monthStart (i : ℕ) : monthIdx (monthStart i) = i := by
  unfold monthIdx monthStart
  simp only
  omega

lemma monthStart_injective : Function.Injective monthStart := by
  intro a b hab
  have h2 := congrArg monthIdx hab
  rwa [monthIdx_monthStart, monthIdx_monthStart] at h2

lemma flatMap_map_fst_eq (g : Date → List (Date × Option ℚ)) :
    ∀ L : List Date, (∀ c ∈ L, (g c).map Prod.fst = [c]) →
      (L.flatMap g).map Prod.fst = L
  | [], _ => by simp
  | c :: L, h => by
    rw [List.flatMap_cons, List.map_append, h c (List.mem_cons_self _ _),
      flatMap_map_fst_eq g L (fun e he => h e (List.mem_cons_of_mem _ he))]
    rfl

lemma filter_fst_length_le_one :
    ∀ (df : DF) (c : Date), (df.map Prod.fst).Nodup →
      (df.filter (fun r => r.1 = c)).length ≤ 1
  | [], _, _ => by simp
  | a :: df, c, h => by
    simp only [List.map_cons, List.nodup_cons] at h
    obtain ⟨hna, hnd⟩ := h
    by_cases hac : a.1 = c
    · have hrest : df.filter (fun r => r.1 = c) = [] := by
        rw [List.filter_eq_nil_iff]
        intro r hr
        simp only [decide_eq_true_eq]
        intro hrc
        exact hna (by rw [hac, ← hrc]; exact List.mem_map_of_mem Prod.fst hr)
      simp [List.filter_cons, hac, hrest]
    · rw [List.filter_cons, if_neg (by simp [hac])]
      exact filter_fst_length_le_one df c hnd

lemma joinCalendar_fst (df : DF) (h : (df.map Prod.fst).Nodup) :
    (joinCalendar df).map Prod.fst = calendar := by
  unfold joinCalendar
  apply flatMap_map_fst_eq
  intro c _
  have hlen := filter_fst_length_le_one df c h
  cases hms : df.filter (fun r => r.1 = c) with
  | nil => simp
  | cons r ms =>
    rw [hms] at hlen
    have hms0 : ms = [] := by
      cases ms with
      | nil => rfl
      | cons x xs => simp at hlen
    subst hms0
    simp

lemma resampleMS_fst_nodup (rows : DF) : ((resampleMS rows).map Prod.fst).Nodup := by
  unfold resampleMS
  cases hm : monthIdxs rows with
  | nil => simp
  | cons i is =>
    rw [List.map_map]
    have hc : (Prod.fst ∘ fun k =>
        (monthStart (is.foldl Nat.min i + k), monthMean rows (is.foldl Nat.min i + k)))
        = fun k => monthStart (is.foldl Nat.min i + k) := rfl
    rw [hc]
    apply List.Nodup.map
    · intro a b hab
      have h2 := monthStart_injective hab
      omega
    · exact List.nodup_range _

lemma process_df_calendar_aux (rows : DF) (h : (rows.map Prod.fst).Nodup) :
    ((process_df rows).map Prod.fst = calendar) ∧
    (∀ pr ∈ process_df rows, (∀ r ∈ rows, monthIdx r.1 ≠ monthIdx pr.1) → pr.2 = none) := by
  constructor
  · unfold process_df
    split
    · exact joinCalendar_fst _ (resampleMS_fst_nodup rows)
    · exact joinCalendar_fst _ h
  · intro pr hpr hno
    unfold process_df at hpr
    have hjoin : ∀ X : DF,
        (∀ q ∈ X, (∀ r ∈ rows, monthIdx r.1 ≠ monthIdx q.1) → q.2 = none) →
        pr ∈ joinCalendar X → pr.2 = none := by
      intro X hX hmem
      unfold joinCalendar at hmem
      obtain ⟨c, _, hprc⟩ := List.mem_flatMap.mp hmem
      cases hms : X.filter (fun r => r.1 = c) with
      | nil =>
        rw [hms] at hprc
        simp only [List.mem_singleton] at hprc
        rw [hprc]
      | cons r ms =>
        rw [hms] at hprc
        simp only [List.mem_map] at hprc
        obtain ⟨q, hq, rfl⟩ := hprc
        have hqf : q ∈ X.filter (fun r => r.1 = c) := by rw [hms]; exact hq
        have hqmem := List.mem_filter.mp hqf
        have hq1 : q.1 = c := by simpa using hqmem.2
        apply hX q hqmem.1
        intro r2 hr2
        have hn2 := hno r2 hr2
        simpa [hq1] using hn2
    split at hpr
    · apply hjoin _ ?_ hpr
      intro q hq hqno
      unfold resampleMS at hq
      cases hm : monthIdxs rows with
      | nil => rw [hm] at hq; simp at hq
      | cons i is =>
        rw [hm] at hq
        simp only [List.mem_map, List.mem_range] at hq
        obtain ⟨k, _, rfl⟩ := hq
        show monthMean rows (is.foldl Nat.min i + k) = none
        unfold monthMean
        have hfil : rows.filter (fun r => monthIdx r.1 = is.foldl Nat.min i + k) = [] := by
          rw [List.filter_eq_nil_iff]
          intro r hr
          simp only [decide_eq_true_eq]
          have h3 := hqno r hr
          rwa [monthIdx_monthStart] at h3
        rw [hfil]
        simp
    · apply hjoin _ ?_ hpr
      intro q hq hqno
      exact absurd rfl (hqno q hq)

/-- Claim C1 (amended): provided the dates of each input DataFrame are
pairwise distinct, every DataFrame returned by `process_dataframes` has as
index exactly the fixed monthly calendar 1960-01-01 .. 2021-12-01 (744
month starts, strictly increasing in time), and every month for which the
input had no observation carries a missing value. -/
theorem process_dataframes_calendar (d : List (String × DF))
    (h : ∀ p ∈ d, (p.2.map Prod.fst).Nodup) :
    calendar.length = 744 ∧
    calendar[0]? = some ⟨1960, 1, 1⟩ ∧
    calendar[743]? = some ⟨2021, 12, 1⟩ ∧
    List.Pairwise (fun a b => monthIdx a < monthIdx b) calendar ∧
    ∀ q ∈ process_dataframes d, ∃ p ∈ d, q.2 = process_df p.2 ∧
      (q.2.map Prod.fst = calendar) ∧
      (∀ pr ∈ q.2, (∀ r ∈ p.2, monthIdx r.1 ≠ monthIdx pr.1) → pr.2 = none) := by
  refine ⟨by simp [calendar], ?_, ?_, ?_, ?_⟩
  · rw [calendar, List.getElem?_map, List.getElem?_range (by norm_num)]
    decide
  · rw [calendar, List.getElem?_map, List.getElem?_range (by norm_num)]
    decide
  · rw [calendar, List.pairwise_map]
    refine List.Pairwise.imp ?_ (List.pairwise_lt_range 744)
    intro a b hab
    rw [monthIdx_monthStart, monthIdx_monthStart]
    omega
  · intro q hq
    unfold process_dataframes at hq
    obtain ⟨p, hp, rfl⟩ := List.mem_map.mp hq
    obtain ⟨h1, h2⟩ := process_df_calendar_aux p.2 (h p hp)
    exact ⟨p, hp, rfl, h1, h2⟩

/-- The input refuting C1 as stated: two observations dated on the same
month start. -/
def c1_rows : DF := [(⟨1960, 1, 1⟩, some 1), (⟨1960, 1, 1⟩, some 2)]

/-- Counterexample for C1: with two rows on the same month-start date the
monthly branch of `process_dataframes` is taken, the left join duplicates
the 1960-01-01 calendar entry, and the result has 745 rows instead of the
744 calendar entries, so its index is not the calendar. -/
theorem process_df_counterexample :
    c1_rows.map Prod.fst = [⟨1960, 1, 1⟩, ⟨1960, 1, 1⟩] ∧
    (process_df c1_rows).length = 745 ∧
    calendar.length = 744 := by
  refine ⟨by decide, by decide, by simp [calendar]⟩

/-- Witness for C1 at a one-station dictionary with a single dated row. -/
theorem process_dataframes_calendar_witness :
    (∀ p ∈ [("s1", [((⟨2000, 5, 1⟩ : Date), some (3 : ℚ))])], (p.2.map Prod.fst).Nodup) ∧
    (calendar.length = 744 ∧
     calendar[0]? = some ⟨1960, 1, 1⟩ ∧
     calendar[743]? = some ⟨2021, 12, 1⟩ ∧
     List.Pairwise (fun a b => monthIdx a < monthIdx b) calendar ∧
     ∀ q ∈ process_dataframes [("s1", [((⟨2000, 5, 1⟩ : Date), some (3 : ℚ))])],
       ∃ p ∈ [("s1", [((⟨2000, 5, 1⟩ : Date), some (3 : ℚ))])], q.2 = process_df p.2 ∧
         (q.2.map Prod.fst = calendar) ∧
         (∀ pr ∈ q.2, (∀ r ∈ p.2, monthIdx r.1 ≠ monthIdx pr.1) → pr.2 = none)) :=
  ⟨by decide, process_dataframes_calendar [("s1", [(⟨2000, 5, 1⟩, some 3)])] (by decide)⟩

lemma series_get_cons_self (a : String) (v : ℚ) (c2 : CorrSeries) :
    series_get ((a, v) :: c2) a = v := by
  unfold series_get
  rw [List.find?_cons]
  simp

lemma series_get_cons_ne (a f : String) (v : ℚ) (c2 : CorrSeries) (hfa : f ≠ a) :
    series_get ((a, v) :: c2) f = series_get c2 f := by
  unfold series_get
  rw [List.find?_cons]
  have hx : (decide ((a, v).1 = f)) = false := by
    simp only [decide_eq_false_iff_not]
    exact fun h2 => hfa h2.symm
  rw [hx]

lemma series_drop_canon :
    ∀ (c : CorrSeries), (c.map Prod.fst).Nodup →
      series_drop c "Values"
        = ((c.map Prod.fst).filter (fun f => f ≠ "Values")).map
            (fun f => (f, series_get c f))
  | [], _ => rfl
  | (a, v) :: c2, hnd => by
    simp only [List.map_cons, List.nodup_cons] at hnd
    obtain ⟨hna, hnd2⟩ := hnd
    have hrest : ((c2.map Prod.fst).filter (fun f => f ≠ "Values")).map
        (fun f => (f, series_get ((a, v) :: c2) f))
        = ((c2.map Prod.fst).filter (fun f => f ≠ "Values")).map
            (fun f => (f, series_get c2 f)) := by
      apply List.map_congr_left
      intro f hf
      have hf2 : f ∈ c2.map Prod.fst := (List.mem_filter.mp hf).1
      have hfa : f ≠ a := fun hq => hna (hq ▸ hf2)
      rw [series_get_cons_ne a f v c2 hfa]
    by_cases hav : a = "Values"
    · have hdrop : series_drop ((a, v) :: c2) "Values" = series_drop c2 "Values" := by
        unfold series_drop
        rw [List.filter_cons, if_neg (by simp [hav])]
      rw [hdrop, series_drop_canon c2 hnd2, List.map_cons, List.filter_cons,
        if_neg (by simp [hav]), ← hrest]
    · have hdrop : series_drop ((a, v) :: c2) "Values"
          = (a, v) :: series_drop c2 "Values" := by
        unfold series_drop
        rw [List.filter_cons, if_pos (by simp [hav])]
      rw [hdrop, series_drop_canon c2 hnd2, List.map_cons, List.filter_cons,
        if_pos (by simp [hav]), List.map_cons, series_get_cons_self, ← hrest]

lemma series_add_canon (ks : List String) (g h : String → ℚ) :
    series_add (ks.map (fun f => (f, g f))) (ks.map (fun f => (f, h f)))
      = ks.map (fun f => (f, g f + h f)) := by
  unfold series_add
  rw [List.zipWith_map, List.zipWith_same]

lemma fold_series_add_canon (ks : List String) :
    ∀ (cs : List CorrSeries) (g : String → ℚ),
      (∀ c ∈ cs, series_drop c "Values" = ks.map (fun f => (f, series_get c f))) →
      (cs.map (fun c => series_drop c "Values")).foldl series_add (ks.map (fun f => (f, g f)))
        = ks.map (fun f => (f, g f + (cs.map (fun c => series_get c f)).sum))
  | [], g, _ => by simp
  | c :: cs, g, h => by
    rw [List.map_cons, List.foldl_cons, h c (List.mem_cons_self _ _), series_add_canon,
      fold_series_add_canon ks cs (fun f => g f + series_get c f)
        (fun c2 hc2 => h c2 (List.mem_cons_of_mem _ hc2))]
    apply List.map_congr_left
    intro f _
    rw [List.map_cons, List.sum_cons, add_assoc]

/-- Claim C7: over a non-empty dictionary whose DataFrames share one
duplicate-free feature schema, `average_correlation_feature_selection`
returns exactly the non-target features whose correlation with `Values`,
averaged over all the DataFrames, exceeds the threshold in absolute value. -/
theorem average_correlation_feature_selection_correct
    (ks : List String) (corrs : List CorrSeries) (t : ℚ)
    (hne : corrs ≠ []) (hk : ∀ c ∈ corrs, c.map Prod.fst = ks) (hnd : ks.Nodup) :
    average_correlation_feature_selection corrs t
      = some ((ks.filter (fun f => f ≠ "Values")).filter
          (fun f => t < |avgCorr corrs f|)) := by
  obtain ⟨c0, cs, rfl⟩ : ∃ c0 cs, corrs = c0 :: cs := by
    cases corrs with
    | nil => exact absurd rfl hne
    | cons a b => exact ⟨a, b, rfl⟩
  have hcanon : ∀ c ∈ c0 :: cs, series_drop c "Values"
      = (ks.filter (fun f => f ≠ "Values")).map (fun f => (f, series_get c f)) := by
    intro c hc
    have h1 := hk c hc
    have h2 : (c.map Prod.fst).Nodup := by rw [h1]; exact hnd
    have h3 := series_drop_canon c h2
    rw [h1] at h3
    exact h3
  have hfold : (cs.map (fun c => series_drop c "Values")).foldl series_add
      (series_drop c0 "Values")
      = (ks.filter (fun f => f ≠ "Values")).map
          (fun f => (f, series_get c0 f + (cs.map (fun c => series_get c f)).sum)) := by
    rw [hcanon c0 (List.mem_cons_self _ _)]
    exact fold_series_add_canon (ks.filter (fun f => f ≠ "Values")) cs
      (fun f => series_get c0 f)
      (fun c hc => hcanon c (List.mem_cons_of_mem _ hc))
  simp only [average_correlation_feature_selection]
  rw [hfold, List.map_map, List.filter_map, List.map_map]
  apply congrArg some
  have hfst : (Prod.fst ∘ ((fun p : String × ℚ => (p.1, p.2 / (((c0 :: cs).length : ℕ) : ℚ)))
      ∘ fun f => (f, series_get c0 f + (cs.map (fun c => series_get c f)).sum))) = id := rfl
  rw [hfst, List.map_id]
  apply List.filter_congr
  intro f _
  have havg : avgCorr (c0 :: cs) f
      = (series_get c0 f + (cs.map (fun c => series_get c f)).sum)
        / (((c0 :: cs).length : ℕ) : ℚ) := by
    unfold avgCorr
    rw [List.map_cons, List.sum_cons]
  simp only [Function.comp_apply, havg]

/-- Witness for C7 at a one-DataFrame dictionary with features
`Values` and `a`. -/
theorem average_correlation_feature_selection_correct_witness :
    ([[("Values", (1 : ℚ)), ("a", 2)]] ≠ ([] : List CorrSeries)) ∧
    (∀ c ∈ [[("Values", (1 : ℚ)), ("a", 2)]], c.map Prod.fst = ["Values", "a"]) ∧
    ["Values", "a"].Nodup ∧
    average_correlation_feature_selection [[("Values", (1 : ℚ)), ("a", 2)]] 0
      = some ((["Values", "a"].filter (fun f => f ≠ "Values")).filter
          (fun f => 0 < |avgCorr [[("Values", (1 : ℚ)), ("a", 2)]] f|)) :=
  ⟨by decide, by decide, by decide,
   average_correlation_feature_selection_correct ["Values", "a"]
     [[("Values", (1 : ℚ)), ("a", 2)]] 0 (by decide) (by decide) (by decide)⟩
